import Mathlib

/-!
Verification of the TickCapture ingest pipeline against its specification.

The development shallowly embeds the C++ sources:
- include/tick_capture/types.hpp   (MarketMessage, checksum, validation)
- src/capture/ring_buffer.hpp      (SPSC ring buffer)
- src/capture/packet_capture.cpp   (capture loop, validate_message, get_stats)
- src/node/capture_node.cpp        (processor loop)
- src/storage/tick_storage.cpp     (per-symbol storage)

Machine integers are modelled as Nat with explicit reductions mod 2^w where
the width matters.  The double field trade.price is modelled by its raw
IEEE-754 bit pattern together with an exact interpretation function f64_interp
used for the comparisons the code performs; IEEE comparisons on non-NaN
values coincide with comparisons of the represented rational values, and all
comparisons involving NaN are false, which is what the semantics below gives.
Word values of the 64-byte record are assembled in little-endian (host) order,
matching the homogeneous little-endian deployment the format targets.
-/

namespace TickCapture

/-- Semantic value of an IEEE-754 binary64 bit pattern: not-a-number, a signed
infinity, or a finite rational value. -/
inductive F64 where
  | nan : F64
  | inf : Bool → F64
  | finite : ℚ → F64
deriving DecidableEq

/-- Sign bit of a binary64 bit pattern. -/
def f64_sign (b : Nat) : Bool := b / 2 ^ 63 % 2 == 1

/-- Biased exponent field of a binary64 bit pattern. -/
def f64_exp (b : Nat) : Nat := b / 2 ^ 52 % 2 ^ 11

/-- Fraction field of a binary64 bit pattern. -/
def f64_frac (b : Nat) : Nat := b % 2 ^ 52

/-- Exact interpretation of a binary64 bit pattern. -/
def f64_interp (b : Nat) : F64 :=
  if f64_exp b = 2047 then
    if f64_frac b = 0 then F64.inf (f64_sign b) else F64.nan
  else
    let mag : ℚ :=
      if f64_exp b = 0 then (f64_frac b : ℚ) / 2 ^ 1074
      else ((2 ^ 52 + f64_frac b : ℚ) * 2 ^ f64_exp b) / 2 ^ 1075
    F64.finite (if f64_sign b then -mag else mag)

/-- The C++ comparison x > q for a double x and a finite constant q.
Comparisons involving NaN are false. -/
def F64.gtc : F64 → ℚ → Bool
  | F64.nan, _ => false
  | F64.inf neg, _ => !neg
  | F64.finite x, q => decide (q < x)

/-- The C++ comparison x < q for a double x and a finite constant q. -/
def F64.ltc : F64 → ℚ → Bool
  | F64.nan, _ => false
  | F64.inf neg, _ => neg
  | F64.finite x, q => decide (x < q)

/-- The C++ comparison x <= q for a double x and a finite constant q. -/
def F64.lec : F64 → ℚ → Bool
  | F64.nan, _ => false
  | F64.inf neg, _ => neg
  | F64.finite x, q => decide (x ≤ q)

/-- MessageType::Trade has underlying value 1. -/
def Trade : Nat := 1

/-- The 64-byte wire record from include/tick_capture/types.hpp.  Fields are
the declared struct members; price_bits holds the IEEE-754 bit pattern of
trade.price; padding is the 3 header padding bytes (offsets 29..31) as one
24-bit value; trade_padding is the 3 bytes at offsets 45..47; tail0..tail3 are
the four 32-bit words at offsets 48..63 of the 32-byte union that lie beyond
the 16-byte trade struct. -/
structure MarketMessage where
  sequence_number : Nat
  timestamp : Nat
  checksum : Nat
  reserved : Nat
  symbol_id : Nat
  type : Nat
  padding : Nat
  price_bits : Nat
  size : Nat
  flags : Nat
  trade_padding : Nat
  tail0 : Nat
  tail1 : Nat
  tail2 : Nat
  tail3 : Nat
deriving DecidableEq

/-- Word 0 of the record viewed as sixteen 32-bit words (little-endian). -/
def word0 (m : MarketMessage) : Nat := m.sequence_number % 2 ^ 32

/-- Word 1: high half of sequence_number. -/
def word1 (m : MarketMessage) : Nat := m.sequence_number / 2 ^ 32 % 2 ^ 32

/-- Word 2: low half of timestamp. -/
def word2 (m : MarketMessage) : Nat := m.timestamp % 2 ^ 32

/-- Word 3: high half of timestamp. -/
def word3 (m : MarketMessage) : Nat := m.timestamp / 2 ^ 32 % 2 ^ 32

/-- Word 4: the checksum field itself. -/
def word4 (m : MarketMessage) : Nat := m.checksum % 2 ^ 32

/-- Word 5: the reserved field. -/
def word5 (m : MarketMessage) : Nat := m.reserved % 2 ^ 32

/-- Word 6: symbol_id. -/
def word6 (m : MarketMessage) : Nat := m.symbol_id % 2 ^ 32

/-- Word 7: type byte plus the three header padding bytes. -/
def word7 (m : MarketMessage) : Nat := m.type % 2 ^ 8 + 2 ^ 8 * (m.padding % 2 ^ 24)

/-- Word 8: low half of the price bit pattern. -/
def word8 (m : MarketMessage) : Nat := m.price_bits % 2 ^ 32

/-- Word 9: high half of the price bit pattern. -/
def word9 (m : MarketMessage) : Nat := m.price_bits / 2 ^ 32 % 2 ^ 32

/-- Word 10: trade.size. -/
def word10 (m : MarketMessage) : Nat := m.size % 2 ^ 32

/-- Word 11: trade.flags byte plus the three trade padding bytes. -/
def word11 (m : MarketMessage) : Nat := m.flags % 2 ^ 8 + 2 ^ 8 * (m.trade_padding % 2 ^ 24)

/-- Word 12 of the record (union bytes 48..51). -/
def word12 (m : MarketMessage) : Nat := m.tail0 % 2 ^ 32

/-- Word 13 of the record (union bytes 52..55). -/
def word13 (m : MarketMessage) : Nat := m.tail1 % 2 ^ 32

/-- Word 14 of the record (union bytes 56..59). -/
def word14 (m : MarketMessage) : Nat := m.tail2 % 2 ^ 32

/-- Word 15 of the record (union bytes 60..63). -/
def word15 (m : MarketMessage) : Nat := m.tail3 % 2 ^ 32

/-- MarketMessage::calculate_checksum, the loop for i in [2, 16) of
sum ^= ptr[i] unrolled left to right with sum starting at 0.  Note the loop
starts at word index 2 and does not exclude word index 4. -/
def calculate_checksum (m : MarketMessage) : Nat :=
  word2 m ^^^ word3 m ^^^ word4 m ^^^ word5 m ^^^ word6 m ^^^ word7 m ^^^
  word8 m ^^^ word9 m ^^^ word10 m ^^^ word11 m ^^^ word12 m ^^^ word13 m ^^^
  word14 m ^^^ word15 m

/-- Modelled from the spec: the checksum the specification describes, the XOR
of every 32-bit word of the record except the checksum word itself (word
index 4 of 16).  Used only to compare the code against the spec. -/
def checksum_per_spec (m : MarketMessage) : Nat :=
  word0 m ^^^ word1 m ^^^ word2 m ^^^ word3 m ^^^ word5 m ^^^ word6 m ^^^
  word7 m ^^^ word8 m ^^^ word9 m ^^^ word10 m ^^^ word11 m ^^^ word12 m ^^^
  word13 m ^^^ word14 m ^^^ word15 m

/-- MarketMessage::is_valid from types.hpp. -/
def is_valid (m : MarketMessage) : Bool :=
  decide (0 < m.sequence_number) && decide (0 < m.symbol_id) &&
  decide (m.symbol_id ≤ 10000) && (m.type == Trade) &&
  (f64_interp m.price_bits).gtc 0 && (f64_interp m.price_bits).ltc 1000000 &&
  decide (0 < m.size) && (m.checksum == calculate_checksum m)

/-- MarketMessage::update_checksum from types.hpp. -/
def update_checksum (m : MarketMessage) : MarketMessage :=
  { m with checksum := calculate_checksum m }

/-- PacketCapture::validate_message from packet_capture.cpp.  It rejects on
the disjunction written in the source and does not look at the checksum. -/
def validate_message (m : MarketMessage) : Bool :=
  !((m.sequence_number == 0) || (m.symbol_id == 0) || decide (m.symbol_id > 10000) ||
    (m.type != Trade) || (f64_interp m.price_bits).lec 0 ||
    (f64_interp m.price_bits).gtc 1000000 || (m.size == 0))

/-- XOR of the thirteen words the checksum loop visits other than the
checksum word itself (helper for the checksum algebra). -/
def xor_sans_checksum (m : MarketMessage) : Nat :=
  word2 m ^^^ word3 m ^^^ word5 m ^^^ word6 m ^^^ word7 m ^^^
  word8 m ^^^ word9 m ^^^ word10 m ^^^ word11 m ^^^ word12 m ^^^ word13 m ^^^
  word14 m ^^^ word15 m

lemma nat_xor_left_comm (a b c : Nat) : a ^^^ (b ^^^ c) = b ^^^ (a ^^^ c) := by
  rw [← Nat.xor_assoc, Nat.xor_comm a b, Nat.xor_assoc]

lemma calculate_checksum_eq (m : MarketMessage) :
    calculate_checksum m = xor_sans_checksum m ^^^ word4 m := by
  unfold calculate_checksum xor_sans_checksum
  simp [Nat.xor_assoc, Nat.xor_comm, nat_xor_left_comm]

lemma calculate_checksum_lt (m : MarketMessage) : calculate_checksum m < 2 ^ 32 := by
  unfold calculate_checksum
  repeat' apply Nat.xor_lt_two_pow
  all_goals simp only [word2, word3, word4, word5, word6, word7, word8, word9,
    word10, word11, word12, word13, word14, word15]
  all_goals omega

lemma calculate_checksum_update (m : MarketMessage) :
    calculate_checksum (update_checksum m) = m.checksum % 2 ^ 32 := by
  have h1 : xor_sans_checksum (update_checksum m) = xor_sans_checksum m := rfl
  have h2 : word4 (update_checksum m) = calculate_checksum m := by
    show calculate_checksum m % 2 ^ 32 = calculate_checksum m
    exact Nat.mod_eq_of_lt (calculate_checksum_lt m)
  rw [calculate_checksum_eq, h1, h2, calculate_checksum_eq m,
    ← Nat.xor_assoc, Nat.xor_self, Nat.zero_xor]
  rfl

/-- Evaluation of the float model at the bit pattern of 0.0. -/
lemma f64_interp_zero : f64_interp 0 = F64.finite 0 := by
  unfold f64_interp f64_exp f64_frac f64_sign
  norm_num

/-- Evaluation of the float model at the bit pattern of 1.0. -/
lemma f64_interp_one : f64_interp 4607182418800017408 = F64.finite 1 := by
  unfold f64_interp f64_exp f64_frac f64_sign
  norm_num

/-- Evaluation of the float model at the bit pattern of 1000000.0. -/
lemma f64_interp_million : f64_interp 4696837146684686336 = F64.finite 1000000 := by
  unfold f64_interp f64_exp f64_frac f64_sign
  norm_num

/-- Record used to probe the checksum round-trip: all field-range invariants
hold (sequence 1, symbol 1, type Trade, price 1.0, size 1), checksum
initially 0, every remaining byte 0. -/
def msg_roundtrip_probe : MarketMessage :=
  { sequence_number := 1, timestamp := 0, checksum := 0, reserved := 0,
    symbol_id := 1, type := Trade, padding := 0,
    price_bits := 4607182418800017408,
    size := 1, flags := 0, trade_padding := 0,
    tail0 := 0, tail1 := 0, tail2 := 0, tail3 := 0 }

/-- Record whose only nonzero word is word 0 (sequence_number = 1). -/
def msg_seq_only : MarketMessage :=
  { sequence_number := 1, timestamp := 0, checksum := 0, reserved := 0,
    symbol_id := 0, type := 0, padding := 0, price_bits := 0,
    size := 0, flags := 0, trade_padding := 0,
    tail0 := 0, tail1 := 0, tail2 := 0, tail3 := 0 }

/-- C1: the checksum round-trip claim fails on the code.  The record
msg_roundtrip_probe satisfies every non-checksum validity invariant
(sequence_number > 0, 1 <= symbol_id <= 10000, type = Trade,
0 < price < 1000000, size > 0), yet is_valid returns false immediately after
update_checksum, because calculate_checksum XORs the stored checksum word
into its result. -/
theorem checksum_roundtrip_fails_on_code :
    (0 < msg_roundtrip_probe.sequence_number ∧
     1 ≤ msg_roundtrip_probe.symbol_id ∧ msg_roundtrip_probe.symbol_id ≤ 10000 ∧
     msg_roundtrip_probe.type = Trade ∧
     (f64_interp msg_roundtrip_probe.price_bits).gtc 0 = true ∧
     (f64_interp msg_roundtrip_probe.price_bits).ltc 1000000 = true ∧
     0 < msg_roundtrip_probe.size) ∧
    is_valid (update_checksum msg_roundtrip_probe) = false := by
  refine ⟨⟨by decide, by decide, by decide, by decide, ?_, ?_, by decide⟩, ?_⟩
  · show (f64_interp 4607182418800017408).gtc 0 = true
    rw [f64_interp_one]
    norm_num [F64.gtc]
  · show (f64_interp 4607182418800017408).ltc 1000000 = true
    rw [f64_interp_one]
    norm_num [F64.ltc]
  · have hck : ((update_checksum msg_roundtrip_probe).checksum ==
        calculate_checksum (update_checksum msg_roundtrip_probe)) = false := by decide
    simp only [is_valid, hck, Bool.and_false]

/-- C2: calculate_checksum does not compute the XOR of all words except the
checksum word.  On a record whose only nonzero word is word 0, the code
returns 0 (its loop starts at word 2, skipping sequence_number, and it
includes the checksum word 4), while the claimed XOR over words 0..3 and
5..15 is 1. -/
theorem calculate_checksum_diverges_from_claim :
    calculate_checksum msg_seq_only = 0 ∧ checksum_per_spec msg_seq_only = 1 := by decide

/-- C10: update_checksum changes no field other than checksum, and applying
it twice restores the record exactly (hence the checksum field), because
calculate_checksum XORs the current checksum word into its result. -/
theorem update_checksum_only_checksum_and_involutive
    (m : MarketMessage) (h : m.checksum < 2 ^ 32) :
    (update_checksum m).sequence_number = m.sequence_number ∧
    (update_checksum m).timestamp = m.timestamp ∧
    (update_checksum m).reserved = m.reserved ∧
    (update_checksum m).symbol_id = m.symbol_id ∧
    (update_checksum m).type = m.type ∧
    (update_checksum m).padding = m.padding ∧
    (update_checksum m).price_bits = m.price_bits ∧
    (update_checksum m).size = m.size ∧
    (update_checksum m).flags = m.flags ∧
    (update_checksum m).trade_padding = m.trade_padding ∧
    (update_checksum m).tail0 = m.tail0 ∧
    (update_checksum m).tail1 = m.tail1 ∧
    (update_checksum m).tail2 = m.tail2 ∧
    (update_checksum m).tail3 = m.tail3 ∧
    update_checksum (update_checksum m) = m := by
  refine ⟨rfl, rfl, rfl, rfl, rfl, rfl, rfl, rfl, rfl, rfl, rfl, rfl, rfl, rfl, ?_⟩
  have h2 := calculate_checksum_update m
  show { update_checksum m with checksum := calculate_checksum (update_checksum m) } = m
  rw [h2, Nat.mod_eq_of_lt h]
  rfl

/-- Witness for C10 at the concrete record msg_roundtrip_probe. -/
theorem update_checksum_only_checksum_and_involutive_witness :
    update_checksum (update_checksum msg_roundtrip_probe) = msg_roundtrip_probe :=
  (update_checksum_only_checksum_and_involutive msg_roundtrip_probe
    (by decide)).2.2.2.2.2.2.2.2.2.2.2.2.2.2

/-! Ring buffer from src/capture/ring_buffer.hpp.  The SPSC atomics are
modelled by a plain sequential state: one producer and one consumer acting in
some interleaved order, which is the contract the source demands.  The slot
vector is a list whose length is the capacity. -/

/-- State of RingBuffer of T: the slot vector, both indices and the three
monitoring counters. -/
structure RingBuffer (T : Type) where
  buffer : List T
  write_idx : Nat
  read_idx : Nat
  total_pushed : Nat
  total_popped : Nat
  push_failures : Nat
deriving DecidableEq

/-- RingBuffer::next_power_of_2, the six shift-or steps on a 64-bit value. -/
def next_power_of_2 (v : Nat) : Nat :=
  let v := (v + (2 ^ 64 - 1)) % 2 ^ 64
  let v := v ||| (v >>> 1)
  let v := v ||| (v >>> 2)
  let v := v ||| (v >>> 4)
  let v := v ||| (v >>> 8)
  let v := v ||| (v >>> 16)
  let v := v ||| (v >>> 32)
  (v + 1) % 2 ^ 64

/-- The RingBuffer constructor: a default-initialized slot vector of
next_power_of_2 size slots, all indices and counters zero. -/
def RingBuffer.init (T : Type) [Inhabited T] (size : Nat) : RingBuffer T :=
  { buffer := List.replicate (next_power_of_2 size) default,
    write_idx := 0, read_idx := 0,
    total_pushed := 0, total_popped := 0, push_failures := 0 }

/-- RingBuffer::capacity. -/
def capacity (rb : RingBuffer T) : Nat := rb.buffer.length

/-- RingBuffer::size. -/
def size (rb : RingBuffer T) : Nat :=
  if rb.write_idx ≥ rb.read_idx then rb.write_idx - rb.read_idx
  else rb.buffer.length - (rb.read_idx - rb.write_idx)

/-- RingBuffer::try_push: full test of the advanced write index (masked with
capacity minus one) against the read index, then either a failure count or a
slot write plus index advance. -/
def try_push (rb : RingBuffer T) (item : T) : RingBuffer T × Bool :=
  if (rb.write_idx + 1) &&& (rb.buffer.length - 1) = rb.read_idx then
    ({ rb with push_failures := rb.push_failures + 1 }, false)
  else
    ({ rb with buffer := rb.buffer.set rb.write_idx item,
               write_idx := (rb.write_idx + 1) &&& (rb.buffer.length - 1),
               total_pushed := rb.total_pushed + 1 }, true)

/-- RingBuffer::try_pop: empty test, then a slot read plus index advance. -/
def try_pop [Inhabited T] (rb : RingBuffer T) : RingBuffer T × Option T :=
  if rb.read_idx = rb.write_idx then (rb, none)
  else
    ({ rb with read_idx := (rb.read_idx + 1) &&& (rb.buffer.length - 1),
               total_popped := rb.total_popped + 1 },
     some (rb.buffer.getD rb.read_idx default))

/-- The bounded single-pop loop inside RingBuffer::pop_bulk: up to the given
bound, stopping at the first empty observation; returns the drained items in
order. -/
def pop_loop [Inhabited T] (rb : RingBuffer T) : Nat → RingBuffer T × List T
  | 0 => (rb, [])
  | n + 1 =>
    match try_pop rb with
    | (rb1, none) => (rb1, [])
    | (rb1, some x) =>
      let r := pop_loop rb1 n
      (r.1, x :: r.2)

/-- RingBuffer::pop_bulk: reads size() once, then runs the bounded pop loop
with bound max_items when everything requested is available, and with bound
size() otherwise. -/
def pop_bulk [Inhabited T] (rb : RingBuffer T) (max_items : Nat) :
    RingBuffer T × List T :=
  let available := size rb
  if available ≥ max_items then pop_loop rb max_items else pop_loop rb available

/-- Well-formedness of a ring buffer state: the capacity is a power of two
(guaranteed by the constructor) and both indices are in range (guaranteed by
the masked index arithmetic). -/
def WF (rb : RingBuffer T) : Prop :=
  (∃ k, rb.buffer.length = 2 ^ k) ∧
  rb.read_idx < rb.buffer.length ∧ rb.write_idx < rb.buffer.length

/-- Abstraction function: the queue a ring buffer state represents, read
from the slot at read_idx onwards, wrapping modulo the capacity. -/
def contents [Inhabited T] (rb : RingBuffer T) : List T :=
  (List.range (size rb)).map fun i =>
    rb.buffer.getD ((rb.read_idx + i) % rb.buffer.length) default

lemma capacity_pos (rb : RingBuffer T) (h : WF rb) : 0 < capacity rb := by
  obtain ⟨⟨k, hk⟩, -, -⟩ := h
  unfold capacity
  rw [hk]
  exact Nat.pos_pow_of_pos k (by omega)

lemma mask_mod (rb : RingBuffer T) (h : WF rb) (x : Nat) :
    x &&& (rb.buffer.length - 1) = x % rb.buffer.length := by
  obtain ⟨⟨k, hk⟩, -, -⟩ := h
  rw [hk]
  exact Nat.and_pow_two_sub_one_eq_mod x k

lemma mod_cases (a len : Nat) (_h0 : 0 < len) (h : a < 2 * len) :
    a % len = if a < len then a else a - len := by
  split
  · exact Nat.mod_eq_of_lt (by assumption)
  · rw [Nat.mod_eq_sub_mod (by omega), Nat.mod_eq_of_lt (by omega)]

lemma size_le (rb : RingBuffer T) (h : WF rb) : size rb ≤ capacity rb - 1 := by
  have hp := capacity_pos rb h
  obtain ⟨-, hr, hw⟩ := h
  unfold size capacity at *
  split <;> omega

lemma size_eq_zero_iff (rb : RingBuffer T) (h : WF rb) :
    size rb = 0 ↔ rb.read_idx = rb.write_idx := by
  have hp := capacity_pos rb h
  obtain ⟨-, hr, hw⟩ := h
  unfold size capacity at *
  split <;> omega

lemma full_iff (rb : RingBuffer T) (h : WF rb) :
    (rb.write_idx + 1) % rb.buffer.length = rb.read_idx ↔
    size rb = capacity rb - 1 := by
  have hp := capacity_pos rb h
  obtain ⟨-, hr, hw⟩ := h
  unfold capacity at hp
  rw [mod_cases _ _ hp (by omega)]
  unfold size capacity
  split <;> split <;> omega

lemma try_push_eq_of_full (rb : RingBuffer T) (x : T) (h : WF rb)
    (hf : size rb = capacity rb - 1) :
    try_push rb x = ({ rb with push_failures := rb.push_failures + 1 }, false) := by
  unfold try_push
  rw [mask_mod rb h, if_pos ((full_iff rb h).mpr hf)]

lemma try_push_eq_of_not_full (rb : RingBuffer T) (x : T) (h : WF rb)
    (hnf : size rb ≠ capacity rb - 1) :
    try_push rb x = ({ rb with
      buffer := rb.buffer.set rb.write_idx x,
      write_idx := (rb.write_idx + 1) % rb.buffer.length,
      total_pushed := rb.total_pushed + 1 }, true) := by
  unfold try_push
  rw [mask_mod rb h, if_neg (fun hc => hnf ((full_iff rb h).mp hc))]

lemma try_pop_eq_of_empty (rb : RingBuffer T) [Inhabited T]
    (he : rb.read_idx = rb.write_idx) : try_pop rb = (rb, none) := by
  unfold try_pop
  rw [if_pos he]

lemma try_pop_eq_of_nonempty (rb : RingBuffer T) [Inhabited T] (h : WF rb)
    (hne : rb.read_idx ≠ rb.write_idx) :
    try_pop rb = ({ rb with
      read_idx := (rb.read_idx + 1) % rb.buffer.length,
      total_popped := rb.total_popped + 1 },
      some (rb.buffer.getD rb.read_idx default)) := by
  unfold try_pop
  rw [mask_mod rb h, if_neg hne]

lemma getD_set_ne (l : List T) (i j : Nat) (x d : T) (h : i ≠ j) :
    (l.set i x).getD j d = l.getD j d := by
  rw [List.getD_eq_getElem?_getD, List.getD_eq_getElem?_getD, List.getElem?_set_ne h]

lemma getD_set_self (l : List T) (i : Nat) (x d : T) (h : i < l.length) :
    (l.set i x).getD i d = x := by
  rw [List.getD_eq_getElem?_getD, List.getElem?_set_self h]
  rfl

lemma wf_try_push (rb : RingBuffer T) (x : T) (h : WF rb) : WF (try_push rb x).1 := by
  by_cases hf : size rb = capacity rb - 1
  · rw [try_push_eq_of_full rb x h hf]
    exact h
  · rw [try_push_eq_of_not_full rb x h hf]
    obtain ⟨⟨k, hk⟩, hr, hw⟩ := h
    have hp : 0 < rb.buffer.length := by
      rw [hk]; exact Nat.pos_pow_of_pos k (by omega)
    refine ⟨⟨k, by simpa using hk⟩, by simpa using hr, ?_⟩
    simpa using Nat.mod_lt _ hp

lemma wf_try_pop [Inhabited T] (rb : RingBuffer T) (h : WF rb) : WF (try_pop rb).1 := by
  by_cases he : rb.read_idx = rb.write_idx
  · rw [try_pop_eq_of_empty rb he]
    exact h
  · rw [try_pop_eq_of_nonempty rb h he]
    obtain ⟨⟨k, hk⟩, hr, hw⟩ := h
    have hp : 0 < rb.buffer.length := by
      rw [hk]; exact Nat.pos_pow_of_pos k (by omega)
    exact ⟨⟨k, hk⟩, Nat.mod_lt _ hp, hw⟩

lemma push_size_arith (len r w : Nat) (hp : 0 < len) (hr : r < len) (hw : w < len)
    (hnf : (if r ≤ w then w - r else len - (r - w)) ≠ len - 1) :
    (if r ≤ (w + 1) % len then (w + 1) % len - r else len - (r - (w + 1) % len)) =
    (if r ≤ w then w - r else len - (r - w)) + 1 := by
  rw [mod_cases _ _ hp (by omega)]
  split_ifs at hnf ⊢ <;> omega

lemma pop_size_arith (len r w : Nat) (hp : 0 < len) (hr : r < len) (hw : w < len)
    (hne : r ≠ w) :
    (if (r + 1) % len ≤ w then w - (r + 1) % len else len - ((r + 1) % len - w)) =
    (if r ≤ w then w - r else len - (r - w)) - 1 := by
  rw [mod_cases _ _ hp (by omega)]
  split_ifs <;> omega

lemma push_key_arith (len r w i : Nat) (hp : 0 < len) (hr : r < len) (hw : w < len)
    (hi : i < if r ≤ w then w - r else len - (r - w)) :
    (r + i) % len ≠ w := by
  rw [mod_cases _ _ hp (by split_ifs at hi <;> omega)]
  split_ifs at hi ⊢ <;> omega

lemma push_last_arith (len r w : Nat) (hp : 0 < len) (hr : r < len) (hw : w < len) :
    (r + if r ≤ w then w - r else len - (r - w)) % len = w := by
  rw [mod_cases _ _ hp (by split_ifs <;> omega)]
  split_ifs <;> omega

lemma contents_try_push [Inhabited T] (rb : RingBuffer T) (x : T) (h : WF rb)
    (hnf : size rb ≠ capacity rb - 1) :
    size (try_push rb x).1 = size rb + 1 ∧
    contents (try_push rb x).1 = contents rb ++ [x] := by
  have hp := capacity_pos rb h
  obtain ⟨hpow, hr, hw⟩ := h
  rw [try_push_eq_of_not_full rb x ⟨hpow, hr, hw⟩ hnf]
  unfold capacity at hp hnf
  have hA : size rb = if rb.read_idx ≤ rb.write_idx
      then rb.write_idx - rb.read_idx
      else rb.buffer.length - (rb.read_idx - rb.write_idx) := rfl
  rw [hA] at hnf
  have hs1 : size ({ rb with
      buffer := rb.buffer.set rb.write_idx x,
      write_idx := (rb.write_idx + 1) % rb.buffer.length,
      total_pushed := rb.total_pushed + 1 } : RingBuffer T) = size rb + 1 := by
    have hB : size ({ rb with
        buffer := rb.buffer.set rb.write_idx x,
        write_idx := (rb.write_idx + 1) % rb.buffer.length,
        total_pushed := rb.total_pushed + 1 } : RingBuffer T) =
        if rb.read_idx ≤ (rb.write_idx + 1) % rb.buffer.length
        then (rb.write_idx + 1) % rb.buffer.length - rb.read_idx
        else (rb.buffer.set rb.write_idx x).length -
          (rb.read_idx - (rb.write_idx + 1) % rb.buffer.length) := rfl
    rw [hB, hA, List.length_set]
    exact push_size_arith _ _ _ hp hr hw hnf
  refine ⟨hs1, ?_⟩
  have hkey : ∀ i, i < size rb → (rb.read_idx + i) % rb.buffer.length ≠ rb.write_idx := by
    intro i hi
    rw [hA] at hi
    exact push_key_arith _ _ _ _ hp hr hw hi
  have hlast : (rb.read_idx + size rb) % rb.buffer.length = rb.write_idx := by
    rw [hA]
    exact push_last_arith _ _ _ hp hr hw
  show (List.range _).map _ = _
  rw [hs1]
  simp only [List.length_set, List.range_succ, List.map_append, List.map_singleton]
  congr 1
  · refine List.map_congr_left fun a ha => ?_
    exact getD_set_ne _ _ _ _ _ (Ne.symm (hkey a (List.mem_range.mp ha)))
  · rw [hlast, getD_set_self _ _ _ _ hw]

lemma contents_try_pop [Inhabited T] (rb : RingBuffer T) (h : WF rb)
    (hne : rb.read_idx ≠ rb.write_idx) :
    size (try_pop rb).1 = size rb - 1 ∧ size rb ≠ 0 ∧
    contents rb = rb.buffer.getD rb.read_idx default :: contents (try_pop rb).1 := by
  have hp := capacity_pos rb h
  have hsz0 : size rb ≠ 0 := fun h0 => hne ((size_eq_zero_iff rb h).mp h0)
  obtain ⟨hpow, hr, hw⟩ := h
  unfold capacity at hp
  rw [try_pop_eq_of_nonempty rb ⟨hpow, hr, hw⟩ hne]
  have hA : size rb = if rb.read_idx ≤ rb.write_idx
      then rb.write_idx - rb.read_idx
      else rb.buffer.length - (rb.read_idx - rb.write_idx) := rfl
  have hs1 : size ({ rb with
      read_idx := (rb.read_idx + 1) % rb.buffer.length,
      total_popped := rb.total_popped + 1 } : RingBuffer T) = size rb - 1 := by
    have hB : size ({ rb with
        read_idx := (rb.read_idx + 1) % rb.buffer.length,
        total_popped := rb.total_popped + 1 } : RingBuffer T) =
        if (rb.read_idx + 1) % rb.buffer.length ≤ rb.write_idx
        then rb.write_idx - (rb.read_idx + 1) % rb.buffer.length
        else rb.buffer.length -
          ((rb.read_idx + 1) % rb.buffer.length - rb.write_idx) := rfl
    rw [hB, hA]
    exact pop_size_arith _ _ _ hp hr hw hne
  refine ⟨hs1, hsz0, ?_⟩
  show (List.range (size rb)).map _ =
    _ :: (List.range _).map _
  rw [hs1]
  obtain ⟨s, hs⟩ : ∃ s, size rb = s + 1 := ⟨size rb - 1, by omega⟩
  rw [hs]
  simp only [Nat.add_sub_cancel, List.range_succ_eq_map, List.map_cons, List.map_map]
  congr 1
  · rw [Nat.add_zero, Nat.mod_eq_of_lt hr]
  · refine List.map_congr_left fun a _ => ?_
    show rb.buffer.getD ((rb.read_idx + (a + 1)) % rb.buffer.length) default =
      rb.buffer.getD (((rb.read_idx + 1) % rb.buffer.length + a) % rb.buffer.length) default
    rw [Nat.mod_add_mod]
    congr 2
    omega

lemma contents_eq_nil_iff [Inhabited T] (rb : RingBuffer T) :
    contents rb = [] ↔ size rb = 0 := by
  unfold contents
  rw [List.map_eq_nil_iff, List.range_eq_nil]

lemma pop_loop_succ_empty [Inhabited T] (rb : RingBuffer T) (n : Nat)
    (he : rb.read_idx = rb.write_idx) : pop_loop rb (n + 1) = (rb, []) := by
  unfold pop_loop
  rw [try_pop_eq_of_empty rb he]

lemma pop_loop_succ_nonempty [Inhabited T] (rb : RingBuffer T) (n : Nat) (h : WF rb)
    (hne : rb.read_idx ≠ rb.write_idx) :
    pop_loop rb (n + 1) =
      ((pop_loop (try_pop rb).1 n).1,
        rb.buffer.getD rb.read_idx default :: (pop_loop (try_pop rb).1 n).2) := by
  conv_lhs => unfold pop_loop
  rw [try_pop_eq_of_nonempty rb h hne]

lemma pop_loop_spec [Inhabited T] (n : Nat) :
    ∀ rb : RingBuffer T, WF rb →
      WF (pop_loop rb n).1 ∧
      (pop_loop rb n).2 ++ contents (pop_loop rb n).1 = contents rb := by
  induction n with
  | zero => exact fun rb h => ⟨h, rfl⟩
  | succ n ih =>
    intro rb h
    by_cases he : rb.read_idx = rb.write_idx
    · rw [pop_loop_succ_empty rb n he]
      exact ⟨h, rfl⟩
    · rw [pop_loop_succ_nonempty rb n h he]
      obtain ⟨hwf1, hrec⟩ := ih (try_pop rb).1 (wf_try_pop rb h)
      obtain ⟨-, -, hcont⟩ := contents_try_pop rb h he
      refine ⟨hwf1, ?_⟩
      rw [hcont]
      simpa using hrec

lemma pop_bulk_spec [Inhabited T] (rb : RingBuffer T) (max_items : Nat) (h : WF rb) :
    WF (pop_bulk rb max_items).1 ∧
    (pop_bulk rb max_items).2 ++ contents (pop_bulk rb max_items).1 = contents rb := by
  by_cases hge : size rb ≥ max_items
  · have heq : pop_bulk rb max_items = pop_loop rb max_items := by
      simp only [pop_bulk]
      rw [if_pos hge]
    rw [heq]
    exact pop_loop_spec max_items rb h
  · have heq : pop_bulk rb max_items = pop_loop rb (size rb) := by
      simp only [pop_bulk]
      rw [if_neg hge]
    rw [heq]
    exact pop_loop_spec (size rb) rb h

/-- A step of a completed sequential run against the ring buffer: a producer
push, a consumer single pop, or a consumer bulk pop with some bound. -/
inductive RBOp (T : Type) where
  | push : T → RBOp T
  | pop : RBOp T
  | bulk : Nat → RBOp T

/-- Runs a list of operations against a ring buffer state.  Returns the final
state, the list of values for which try_push returned true (in push order),
and the list of values returned by try_pop and pop_bulk (in pop order). -/
def run_ops [Inhabited T] (rb : RingBuffer T) : List (RBOp T) → RingBuffer T × List T × List T
  | [] => (rb, [], [])
  | RBOp.push x :: rest =>
    let p := try_push rb x
    let r := run_ops p.1 rest
    (r.1, (if p.2 then [x] else []) ++ r.2.1, r.2.2)
  | RBOp.pop :: rest =>
    let p := try_pop rb
    let r := run_ops p.1 rest
    (r.1, r.2.1, p.2.toList ++ r.2.2)
  | RBOp.bulk n :: rest =>
    let p := pop_bulk rb n
    let r := run_ops p.1 rest
    (r.1, r.2.1, p.2 ++ r.2.2)

lemma run_ops_invariant [Inhabited T] (ops : List (RBOp T)) :
    ∀ rb : RingBuffer T, WF rb →
      WF (run_ops rb ops).1 ∧
      contents rb ++ (run_ops rb ops).2.1 =
        (run_ops rb ops).2.2 ++ contents (run_ops rb ops).1 := by
  induction ops with
  | nil => exact fun rb h => ⟨h, by simp [run_ops]⟩
  | cons op rest ih =>
    intro rb h
    cases op with
    | push x =>
      obtain ⟨hwf1, hrec⟩ := ih (try_push rb x).1 (wf_try_push rb x h)
      by_cases hf : size rb = capacity rb - 1
      · have hfull := try_push_eq_of_full rb x h hf
        refine ⟨by simpa [run_ops] using hwf1, ?_⟩
        simp only [run_ops, hfull]
        have hc : contents ({ rb with push_failures := rb.push_failures + 1 } :
            RingBuffer T) = contents rb := rfl
        simpa [hc] using by
          rw [hfull] at hrec
          simpa [hc] using hrec
      · obtain ⟨-, hcont⟩ := contents_try_push rb x h hf
        have hok : (try_push rb x).2 = true := by
          rw [try_push_eq_of_not_full rb x h hf]
        refine ⟨hwf1, ?_⟩
        simp only [run_ops, hok, if_true]
        rw [← List.append_assoc, ← hcont]
        exact hrec
    | pop =>
      obtain ⟨hwf1, hrec⟩ := ih (try_pop rb).1 (wf_try_pop rb h)
      by_cases he : rb.read_idx = rb.write_idx
      · have hemp := try_pop_eq_of_empty rb he
        refine ⟨hwf1, ?_⟩
        simp only [run_ops, hemp, Option.toList_none, List.nil_append]
        simpa [hemp] using hrec
      · obtain ⟨-, -, hcont⟩ := contents_try_pop rb h he
        have hsome : (try_pop rb).2 = some (rb.buffer.getD rb.read_idx default) := by
          rw [try_pop_eq_of_nonempty rb h he]
        refine ⟨hwf1, ?_⟩
        simp only [run_ops, hsome, Option.toList_some]
        rw [hcont]
        simpa using hrec
    | bulk n =>
      obtain ⟨hwfp, hpop⟩ := pop_bulk_spec rb n h
      obtain ⟨hwf1, hrec⟩ := ih (pop_bulk rb n).1 hwfp
      refine ⟨hwf1, ?_⟩
      simp only [run_ops]
      rw [← hpop]
      simp only [List.append_assoc]
      exact congrArg _ hrec

/-- C6: on a well-formed state, the buffer is exactly full (it holds
capacity minus one items) exactly when the advanced write index meets the
read index; in that case try_push returns false, changes nothing except
incrementing push_failures by one, and otherwise it writes the item into the
slot at the current write index, advances the write index by one modulo the
capacity, increments total_pushed and returns true.  The release/acquire
orderings of the source are modelled by the sequential state transition. -/
theorem try_push_full_and_nonfull_behavior (rb : RingBuffer T) (x : T) (h : WF rb) :
    (size rb = capacity rb - 1 ↔ (rb.write_idx + 1) % capacity rb = rb.read_idx) ∧
    (size rb = capacity rb - 1 →
      try_push rb x = ({ rb with push_failures := rb.push_failures + 1 }, false)) ∧
    (size rb ≠ capacity rb - 1 →
      try_push rb x = ({ rb with
        buffer := rb.buffer.set rb.write_idx x,
        write_idx := (rb.write_idx + 1) % capacity rb,
        total_pushed := rb.total_pushed + 1 }, true)) :=
  ⟨(full_iff rb h).symm, try_push_eq_of_full rb x h, try_push_eq_of_not_full rb x h⟩

/-- A concrete exactly-full ring buffer state with capacity 4. -/
def rb_full_probe : RingBuffer Nat :=
  { buffer := [0, 0, 0, 0], write_idx := 3, read_idx := 0,
    total_pushed := 3, total_popped := 0, push_failures := 0 }

/-- Witness for C6 at the concrete exactly-full state rb_full_probe. -/
theorem try_push_full_and_nonfull_behavior_witness :
    try_push rb_full_probe 7 =
      ({ rb_full_probe with push_failures := rb_full_probe.push_failures + 1 }, false) :=
  (try_push_full_and_nonfull_behavior rb_full_probe 7
    ⟨⟨2, rfl⟩, by decide, by decide⟩).2.1 (by decide)

/-- C7: the ring buffer refines a bounded FIFO queue.  Over any completed
sequential run of push, pop and bulk-pop operations starting from an empty
well-formed state, the popped sequence followed by the values still in the
buffer equals the successfully pushed sequence; hence the popped sequence is
an initial segment of the pushed sequence, and once the buffer is drained the
multisets of popped and successfully pushed values coincide. -/
theorem ring_buffer_fifo_refinement [Inhabited T] (ops : List (RBOp T))
    (rb : RingBuffer T) (h : WF rb) (hemp : contents rb = []) :
    (run_ops rb ops).2.2 ++ contents (run_ops rb ops).1 = (run_ops rb ops).2.1 ∧
    (∃ t, (run_ops rb ops).2.2 ++ t = (run_ops rb ops).2.1) ∧
    (contents (run_ops rb ops).1 = [] →
      Multiset.ofList (run_ops rb ops).2.2 = Multiset.ofList (run_ops rb ops).2.1) := by
  obtain ⟨-, hinv⟩ := run_ops_invariant ops rb h
  rw [hemp, List.nil_append] at hinv
  refine ⟨hinv.symm, ⟨_, hinv.symm⟩, fun hdone => ?_⟩
  rw [hinv, hdone, List.append_nil]

/-! Storage stage from src/storage/tick_storage.cpp.  TickStorage::store
resolves the per-symbol file handle (creating the file lazily), writes the
64-byte record, flushes, and bumps the counters; the source performs no check
on symbol_id.  We model each per-symbol file by the number of bytes appended
to it during the run. -/

/-- TickStorage state: bytes appended per symbol file plus the two global
counters. -/
structure TickStorage where
  bytes_for : Nat → Nat
  total_messages : Nat
  total_bytes : Nat

/-- TickStorage::store. -/
def store (s : TickStorage) (m : MarketMessage) : TickStorage :=
  { bytes_for := fun sym =>
      if sym = m.symbol_id then s.bytes_for sym + 64 else s.bytes_for sym,
    total_messages := s.total_messages + 1,
    total_bytes := s.total_bytes + 64 }

/-- The default-constructed MarketMessage: all fields zero, type Trade. -/
instance : Inhabited MarketMessage :=
  ⟨{ sequence_number := 0, timestamp := 0, checksum := 0, reserved := 0,
     symbol_id := 0, type := Trade, padding := 0, price_bits := 0,
     size := 0, flags := 0, trade_padding := 0,
     tail0 := 0, tail1 := 0, tail2 := 0, tail3 := 0 }⟩

/-! Capture and processor stages.  The capture loop walks a received datagram
in strides of 64 bytes, validates each record and pushes it; the processor
drains the ring in batches and stores each record.  NodeState gathers the
ring, the capture counters (messages_received, messages_dropped,
messages_invalid, written only by the capture thread), the processor counter
messages_processed, the last_sequence tracker and the storage state. -/

/-- Combined state of PacketCapture and CaptureNode. -/
structure NodeState where
  ring : RingBuffer MarketMessage
  messages_received : Nat
  messages_dropped : Nat
  messages_invalid : Nat
  messages_processed : Nat
  last_sequence : Nat
  storage : TickStorage

/-- The per-record body of PacketCapture::capture_loop: validate, then
try_push; count the record as received on push success, as dropped on buffer
full, as invalid on validation failure. -/
def process_record (s : NodeState) (m : MarketMessage) : NodeState :=
  if validate_message m then
    let p := try_push s.ring m
    if p.2 then { s with ring := p.1, messages_received := s.messages_received + 1 }
    else { s with ring := p.1, messages_dropped := s.messages_dropped + 1 }
  else { s with messages_invalid := s.messages_invalid + 1 }

/-- One byte of the receive buffer. -/
def byte_at (bytes : List Nat) (i : Nat) : Nat := bytes.getD i 0 % 2 ^ 8

/-- Little-endian value of n bytes of the receive buffer starting at off. -/
def le_bytes (bytes : List Nat) (off : Nat) : Nat → Nat
  | 0 => 0
  | n + 1 => byte_at bytes off + 2 ^ 8 * le_bytes bytes (off + 1) n

/-- Reinterpretation of 64 bytes of the receive buffer at a given offset as a
MarketMessage (host little-endian layout of types.hpp). -/
def parse_message (bytes : List Nat) (off : Nat) : MarketMessage :=
  { sequence_number := le_bytes bytes off 8,
    timestamp := le_bytes bytes (off + 8) 8,
    checksum := le_bytes bytes (off + 16) 4,
    reserved := le_bytes bytes (off + 20) 4,
    symbol_id := le_bytes bytes (off + 24) 4,
    type := byte_at bytes (off + 28),
    padding := le_bytes bytes (off + 29) 3,
    price_bits := le_bytes bytes (off + 32) 8,
    size := le_bytes bytes (off + 40) 4,
    flags := byte_at bytes (off + 44),
    trade_padding := le_bytes bytes (off + 45) 3,
    tail0 := le_bytes bytes (off + 48) 4,
    tail1 := le_bytes bytes (off + 52) 4,
    tail2 := le_bytes bytes (off + 56) 4,
    tail3 := le_bytes bytes (off + 60) 4 }

/-- The datagram walk of PacketCapture::capture_loop: while another complete
64-byte record fits below bytes_received, handle it and stride forward. -/
def process_datagram_from (s : NodeState) (bytes : List Nat) (processed : Nat) :
    NodeState :=
  if h : processed + 64 ≤ bytes.length then
    process_datagram_from (process_record s (parse_message bytes processed))
      bytes (processed + 64)
  else s
termination_by bytes.length - processed
decreasing_by omega

/-- Handling of one received datagram by the capture loop. -/
def process_datagram (s : NodeState) (bytes : List Nat) : NodeState :=
  process_datagram_from s bytes 0

/-- The complete 64-byte records at the front of a datagram. -/
def datagram_records (bytes : List Nat) : List MarketMessage :=
  (List.range (bytes.length / 64)).map fun i => parse_message bytes (64 * i)

/-- One event of the two-thread pipeline: the capture thread handles one wire
record, or the processor thread handles one iteration for one record (the
per-record body of CaptureNode::process_messages, which pop_bulk reduces to
a sequence of single pops). -/
inductive NodeEv where
  | recv : MarketMessage → NodeEv
  | proc : NodeEv

/-- One pipeline step.  A proc step on an empty ring does nothing; otherwise
it pops one record, tracks its sequence number, stores it and increments
messages_processed, exactly as CaptureNode::process_messages does per
record. -/
def node_step (s : NodeState) : NodeEv → NodeState
  | NodeEv.recv m => process_record s m
  | NodeEv.proc =>
    let p := try_pop s.ring
    match p.2 with
    | none => { s with ring := p.1 }
    | some m =>
      { s with ring := p.1, storage := store s.storage m,
               messages_processed := s.messages_processed + 1,
               last_sequence := m.sequence_number }

/-- PacketCapture::get_stats snapshot arithmetic: the counters are uint64,
and the reported messages_processed is computed as
messages_received - messages_dropped in wraparound 64-bit arithmetic. -/
def u64_sub (a b : Nat) : Nat := (a % 2 ^ 64 + (2 ^ 64 - b % 2 ^ 64)) % 2 ^ 64

/-- The snapshot value type filled in by PacketCapture::get_stats. -/
structure CaptureStats where
  messages_received : Nat
  messages_processed : Nat
  messages_dropped : Nat
  messages_invalid : Nat
deriving DecidableEq

/-- PacketCapture::get_stats from packet_capture.cpp. -/
def get_stats (received dropped invalid : Nat) : CaptureStats :=
  { messages_received := received,
    messages_dropped := dropped,
    messages_invalid := invalid,
    messages_processed := u64_sub received dropped }

/-- A concrete empty ring buffer state with capacity 4. -/
def rb_empty_probe : RingBuffer Nat :=
  { buffer := [0, 0, 0, 0], write_idx := 0, read_idx := 0,
    total_pushed := 0, total_popped := 0, push_failures := 0 }

lemma not_beq_zero (n : Nat) : (!(n == 0)) = decide (0 < n) := by
  cases n <;> simp

/-- The reject-disjunction of validate_message, rewritten as the acceptance
conjunction it is equivalent to. -/
lemma validate_message_eq (m : MarketMessage) :
    validate_message m =
      (decide (0 < m.sequence_number) && decide (0 < m.symbol_id) &&
       decide (m.symbol_id ≤ 10000) && (m.type == Trade) &&
       !((f64_interp m.price_bits).lec 0) && !((f64_interp m.price_bits).gtc 1000000) &&
       decide (0 < m.size)) := by
  unfold validate_message
  simp only [Bool.not_or, not_beq_zero, bne, Bool.not_not]
  have h3 : (!decide (m.symbol_id > 10000)) = decide (m.symbol_id ≤ 10000) := by
    rw [← decide_not]
    simp [Nat.not_lt]
  rw [h3]

/-- The empty storage state. -/
def storage_init_probe : TickStorage :=
  { bytes_for := fun _ => 0, total_messages := 0, total_bytes := 0 }

/-- A fresh node state: empty ring of capacity 4, all counters zero. -/
def node_init_probe : NodeState :=
  { ring := { buffer := List.replicate 4 default, write_idx := 0, read_idx := 0,
              total_pushed := 0, total_popped := 0, push_failures := 0 },
    messages_received := 0, messages_dropped := 0, messages_invalid := 0,
    messages_processed := 0, last_sequence := 0, storage := storage_init_probe }

/-- A record with every field-range invariant satisfied except that its price
is exactly 1000000.0 (not strictly below one million) and its stored checksum
(zero) does not match calculate_checksum. -/
def msg_price_boundary_probe : MarketMessage :=
  { sequence_number := 1, timestamp := 0, checksum := 0, reserved := 0,
    symbol_id := 1, type := Trade, padding := 0,
    price_bits := 4696837146684686336,
    size := 1, flags := 0, trade_padding := 0,
    tail0 := 0, tail1 := 0, tail2 := 0, tail3 := 0 }

/-- C3 counterexample: the capture loop accepts and enqueues a record whose
stored checksum does not match the computed checksum and whose price is
exactly 1000000 (not strictly below it); the claimed validation predicate
would discard it.  validate_message never reads the checksum and rejects the
price only when it is strictly above one million. -/
theorem capture_accepts_mismatched_checksum_and_boundary_price :
    validate_message msg_price_boundary_probe = true ∧
    f64_interp msg_price_boundary_probe.price_bits = F64.finite 1000000 ∧
    msg_price_boundary_probe.checksum ≠ calculate_checksum msg_price_boundary_probe ∧
    (process_record node_init_probe msg_price_boundary_probe).messages_invalid = 0 ∧
    (process_record node_init_probe msg_price_boundary_probe).messages_received = 1 := by
  have hbits : msg_price_boundary_probe.price_bits = 4696837146684686336 := rfl
  have hval : validate_message msg_price_boundary_probe = true := by
    rw [validate_message_eq, hbits, f64_interp_million]
    norm_num [F64.lec, F64.gtc, msg_price_boundary_probe, Trade]
  refine ⟨hval, by rw [hbits, f64_interp_million], by decide, ?_, ?_⟩ <;>
    simp only [process_record, hval, if_true] <;> rfl

/-- C3 amended: capture-stage validation accepts a record exactly when
sequence_number > 0, 1 <= symbol_id <= 10000, type = Trade, the price is not
below-or-equal zero, the price is not strictly above 1000000 (so a price of
exactly 1000000 passes), and size > 0; the stored checksum is not examined
(the verify_checksums flag is ignored).  A record failing any of these checks
is counted invalid and discarded, and an accepted record is pushed, counting
as received on success and as dropped when the ring is full. -/
theorem capture_validation_characterization (s : NodeState) (m : MarketMessage) :
    (validate_message m =
      (decide (0 < m.sequence_number) && decide (0 < m.symbol_id) &&
       decide (m.symbol_id ≤ 10000) && (m.type == Trade) &&
       !((f64_interp m.price_bits).lec 0) && !((f64_interp m.price_bits).gtc 1000000) &&
       decide (0 < m.size))) ∧
    (process_record s m =
      if validate_message m then
        (if (try_push s.ring m).2
         then { s with ring := (try_push s.ring m).1,
                       messages_received := s.messages_received + 1 }
         else { s with ring := (try_push s.ring m).1,
                       messages_dropped := s.messages_dropped + 1 })
      else { s with messages_invalid := s.messages_invalid + 1 }) :=
  ⟨validate_message_eq m, rfl⟩

/-- An all-zero record; its symbol_id is 0 and its sequence_number is 0, so
it fails validation. -/
def msg_zero : MarketMessage :=
  { sequence_number := 0, timestamp := 0, checksum := 0, reserved := 0,
    symbol_id := 0, type := 0, padding := 0, price_bits := 0,
    size := 0, flags := 0, trade_padding := 0,
    tail0 := 0, tail1 := 0, tail2 := 0, tail3 := 0 }

/-- C8 counterexample: TickStorage::store does not reject a record whose
symbol_id is 0; it appends 64 bytes to the file 0.tick like any other
record (the source contains no symbol_id check at all). -/
theorem store_writes_for_symbol_zero :
    msg_zero.symbol_id = 0 ∧
    (store storage_init_probe msg_zero).bytes_for 0 = 64 ∧
    (store storage_init_probe msg_zero).total_bytes = 64 := by
  refine ⟨rfl, ?_, rfl⟩
  simp [store, storage_init_probe, msg_zero]

/-- C8 amended: store performs no symbol_id range validation.  For every
record, whatever its symbol_id (including 0 and values above 10000), it
appends exactly 64 bytes to the file of that symbol_id, leaves every other
file unchanged, and bumps the global counters. -/
theorem store_appends_64_bytes_unconditionally (s : TickStorage) (m : MarketMessage) :
    (store s m).bytes_for m.symbol_id = s.bytes_for m.symbol_id + 64 ∧
    (∀ k, k ≠ m.symbol_id → (store s m).bytes_for k = s.bytes_for k) ∧
    (store s m).total_bytes = s.total_bytes + 64 ∧
    (store s m).total_messages = s.total_messages + 1 :=
  ⟨by simp [store], fun k hk => by simp [store, hk], rfl, rfl⟩

/-- Witness for C8 at a record with symbol_id 0 on the empty storage. -/
theorem store_appends_64_bytes_unconditionally_witness :
    (store storage_init_probe msg_zero).bytes_for msg_zero.symbol_id =
      storage_init_probe.bytes_for msg_zero.symbol_id + 64 ∧
    (store storage_init_probe msg_zero).bytes_for 1 = storage_init_probe.bytes_for 1 :=
  ⟨(store_appends_64_bytes_unconditionally storage_init_probe msg_zero).1,
   (store_appends_64_bytes_unconditionally storage_init_probe msg_zero).2.1 1 (by decide)⟩

/-- C9 counterexample: the reported messages_processed is not always at least
2^63 when messages_dropped exceeds messages_received.  At received = 0 and
dropped = 2^63 + 1, the wraparound difference is 2^63 - 1 < 2^63. -/
theorem get_stats_processed_below_2_63 :
    (get_stats 0 (2 ^ 63 + 1) 0).messages_processed = 2 ^ 63 - 1 ∧
    (2 ^ 63 - 1 : Nat) < 2 ^ 63 ∧ (0 : Nat) < 2 ^ 63 + 1 := by
  refine ⟨?_, by norm_num, by norm_num⟩
  show u64_sub 0 (2 ^ 63 + 1) = 2 ^ 63 - 1
  unfold u64_sub
  norm_num

/-- C9 amended: get_stats reports messages_processed as
(messages_received - messages_dropped) mod 2^64; on any uint64 counter state
with messages_dropped > messages_received this equals
2^64 - (messages_dropped - messages_received), which is at least 2^63
exactly when the excess of dropped over received is at most 2^63.
(messages_received itself is incremented by the capture loop only when a
record is successfully pushed, see process_record.) -/
theorem get_stats_processed_wraparound (received dropped invalid : Nat)
    (hr : received < 2 ^ 64) (hd : dropped < 2 ^ 64) (hgt : received < dropped) :
    (get_stats received dropped invalid).messages_processed =
      2 ^ 64 - (dropped - received) ∧
    (dropped - received ≤ 2 ^ 63 →
      2 ^ 63 ≤ (get_stats received dropped invalid).messages_processed) := by
  have hcore : u64_sub received dropped = 2 ^ 64 - (dropped - received) := by
    unfold u64_sub
    have h1 : received % 2 ^ 64 = received := Nat.mod_eq_of_lt hr
    have h2 : dropped % 2 ^ 64 = dropped := Nat.mod_eq_of_lt hd
    rw [h1, h2, Nat.mod_eq_of_lt (by omega)]
    omega
  exact ⟨hcore, fun hle => by rw [show (get_stats received dropped invalid).messages_processed = u64_sub received dropped from rfl, hcore]; omega⟩

/-- Witness for C9 at received = 0, dropped = 1. -/
theorem get_stats_processed_wraparound_witness :
    (get_stats 0 1 0).messages_processed = 2 ^ 64 - 1 :=
  (get_stats_processed_wraparound 0 1 0 (by norm_num) (by norm_num) (by norm_num)).1

lemma process_record_invalid_count (s : NodeState) (m : MarketMessage) :
    (process_record s m).messages_invalid =
      s.messages_invalid + (if validate_message m then 0 else 1) := by
  unfold process_record
  by_cases hv : validate_message m
  · simp only [hv, if_true]
    by_cases hp : (try_push s.ring m).2 <;> simp [hp]
  · simp [hv]

lemma foldl_invalid_count (ms : List MarketMessage) :
    ∀ s : NodeState,
      (ms.foldl process_record s).messages_invalid =
        s.messages_invalid + (ms.filter fun m => !validate_message m).length := by
  induction ms with
  | nil => intro s; simp
  | cons m ms ih =>
    intro s
    rw [List.foldl_cons, ih, process_record_invalid_count]
    by_cases hv : validate_message m
    · simp [hv]
    · simp [hv]
      omega

lemma process_from_eq (bytes : List Nat) :
    ∀ n k (s : NodeState), n = bytes.length / 64 - k →
      process_datagram_from s bytes (64 * k) =
        ((List.range' k n).map fun i => parse_message bytes (64 * i)).foldl
          process_record s := by
  intro n
  induction n with
  | zero =>
    intro k s h
    have hnot : ¬ (64 * k + 64 ≤ bytes.length) := by omega
    unfold process_datagram_from
    rw [dif_neg hnot]
    simp [List.range']
  | succ n ih =>
    intro k s h
    have hle : 64 * k + 64 ≤ bytes.length := by omega
    unfold process_datagram_from
    rw [dif_pos hle]
    have h64 : 64 * k + 64 = 64 * (k + 1) := by omega
    rw [h64, ih (k + 1) _ (by omega), List.range'_succ k n 1]
    simp

lemma process_datagram_eq_foldl (s : NodeState) (bytes : List Nat) :
    process_datagram s bytes = (datagram_records bytes).foldl process_record s := by
  unfold process_datagram datagram_records
  have h := process_from_eq bytes (bytes.length / 64) 0 s (by omega)
  simpa [List.range_eq_range'] using h

/-- C4 amended: the capture loop handles exactly the complete 64-byte prefix
records of a datagram, each validated and pushed / counted exactly as
process_record does, and it silently ignores the trailing
bytes_received mod 64 residual bytes: in particular messages_invalid grows
only by the number of complete prefix records that fail validation, never for
the residual. -/
theorem capture_loop_prefix_records_residual_ignored (s : NodeState) (bytes : List Nat) :
    process_datagram s bytes = (datagram_records bytes).foldl process_record s ∧
    (process_datagram s bytes).messages_invalid =
      s.messages_invalid +
        ((datagram_records bytes).filter fun m => !validate_message m).length := by
  refine ⟨process_datagram_eq_foldl s bytes, ?_⟩
  rw [process_datagram_eq_foldl s bytes]
  exact foldl_invalid_count (datagram_records bytes) s

/-- Wire bytes of one valid record: sequence 1, symbol 1, type Trade, price
1.0, size 1, checksum 0 (little-endian layout, 64 bytes). -/
def valid_record_bytes : List Nat :=
  ((((((List.replicate 64 0).set 0 1).set 24 1).set 28 1).set 38 240).set 39 63).set 40 1

/-- A 65-byte datagram: one complete valid record followed by one residual
byte. -/
def bytes65 : List Nat := valid_record_bytes ++ [0]

lemma validate_roundtrip_probe : validate_message msg_roundtrip_probe = true := by
  rw [validate_message_eq,
    show msg_roundtrip_probe.price_bits = 4607182418800017408 from rfl, f64_interp_one]
  norm_num [F64.lec, F64.gtc, msg_roundtrip_probe, Trade]

/-- C4 counterexample: on a 65-byte datagram (one valid record plus one
residual byte) the capture loop pushes the prefix record and leaves
messages_invalid at zero; the claim says the residual is counted by
incrementing messages_invalid. -/
theorem residual_bytes_not_counted_invalid :
    bytes65.length % 64 = 1 ∧
    (process_datagram node_init_probe bytes65).messages_invalid = 0 ∧
    (process_datagram node_init_probe bytes65).messages_received = 1 := by
  have h0 := process_datagram_eq_foldl node_init_probe bytes65
  have hrec : datagram_records bytes65 = [parse_message bytes65 0] := by
    unfold datagram_records
    rw [show bytes65.length = 65 from rfl]
    rfl
  have hparse : parse_message bytes65 0 = msg_roundtrip_probe := by decide
  have hpush : (try_push node_init_probe.ring msg_roundtrip_probe).2 = true := by decide
  refine ⟨by decide, ?_, ?_⟩ <;>
    rw [h0, hrec, hparse, List.foldl_cons, List.foldl_nil] <;>
    simp only [process_record, validate_roundtrip_probe, if_true, hpush] <;>
    rfl

lemma node_step_preserves (s : NodeState) (ev : NodeEv)
    (h : WF s.ring)
    (hinv : s.messages_received = s.messages_processed + (contents s.ring).length) :
    WF (node_step s ev).ring ∧
    (node_step s ev).messages_received =
      (node_step s ev).messages_processed + (contents (node_step s ev).ring).length := by
  cases ev with
  | recv m =>
    show WF (process_record s m).ring ∧
      (process_record s m).messages_received =
        (process_record s m).messages_processed +
        (contents (process_record s m).ring).length
    unfold process_record
    by_cases hv : validate_message m
    · simp only [hv, if_true]
      by_cases hf : size s.ring = capacity s.ring - 1
      · have hfull := try_push_eq_of_full s.ring m h hf
        have hp2 : (try_push s.ring m).2 = false := by rw [hfull]
        simp only [hp2, Bool.false_eq_true, if_false]
        rw [hfull]
        exact ⟨h, hinv⟩
      · have hp2 : (try_push s.ring m).2 = true := by
          rw [try_push_eq_of_not_full s.ring m h hf]
        obtain ⟨-, hcont⟩ := contents_try_push s.ring m h hf
        simp only [hp2, if_true]
        refine ⟨wf_try_push s.ring m h, ?_⟩
        show s.messages_received + 1 = s.messages_processed + _
        rw [hcont]
        simp only [List.length_append, List.length_singleton]
        omega
    · simp only [hv, Bool.false_eq_true, if_false]
      exact ⟨h, hinv⟩
  | proc =>
    by_cases he : s.ring.read_idx = s.ring.write_idx
    · have hemp := try_pop_eq_of_empty s.ring he
      simp only [node_step, hemp]
      exact ⟨h, hinv⟩
    · have hpop := try_pop_eq_of_nonempty s.ring h he
      obtain ⟨-, -, hcont⟩ := contents_try_pop s.ring h he
      have hwf := wf_try_pop s.ring h
      simp only [node_step, hpop]
      rw [hpop] at hwf hcont
      refine ⟨hwf, ?_⟩
      show s.messages_received = s.messages_processed + 1 + _
      rw [hcont] at hinv
      simp only [List.length_cons] at hinv
      omega

/-- C5 amended: messages_received counts only the records that were
successfully pushed into the ring, so over any pipeline run from a state
satisfying the invariant, messages_received = messages_processed plus the
number of records currently in the ring; dropped and invalid records are
counted in their own counters and are not part of messages_received. -/
theorem received_eq_processed_plus_in_ring (evs : List NodeEv) (s0 : NodeState)
    (h : WF s0.ring)
    (hinv : s0.messages_received =
      s0.messages_processed + (contents s0.ring).length) :
    WF (evs.foldl node_step s0).ring ∧
    (evs.foldl node_step s0).messages_received =
      (evs.foldl node_step s0).messages_processed +
      (contents (evs.foldl node_step s0).ring).length := by
  induction evs generalizing s0 with
  | nil => exact ⟨h, hinv⟩
  | cons ev evs ih =>
    rw [List.foldl_cons]
    obtain ⟨h1, h2⟩ := node_step_preserves s0 ev h hinv
    exact ih _ h1 h2

/-- Witness for C5 on a concrete run: one accepted record, one processor
step. -/
theorem received_eq_processed_plus_in_ring_witness :
    ([NodeEv.recv msg_price_boundary_probe, NodeEv.proc].foldl node_step
        node_init_probe).messages_received =
      ([NodeEv.recv msg_price_boundary_probe, NodeEv.proc].foldl node_step
        node_init_probe).messages_processed +
      (contents ([NodeEv.recv msg_price_boundary_probe, NodeEv.proc].foldl node_step
        node_init_probe).ring).length :=
  (received_eq_processed_plus_in_ring [NodeEv.recv msg_price_boundary_probe, NodeEv.proc]
    node_init_probe ⟨⟨2, by decide⟩, by decide, by decide⟩ (by decide)).2

/-- C5 counterexample: after the capture loop sees one invalid record, the
claimed balance fails: messages_received is 0 but processed + dropped +
invalid + in-ring is 1, because messages_received is not incremented for
invalid (or dropped) records. -/
theorem conservation_including_dropped_invalid_fails :
    (node_step node_init_probe (NodeEv.recv msg_zero)).messages_received ≠
      (node_step node_init_probe (NodeEv.recv msg_zero)).messages_processed +
      (node_step node_init_probe (NodeEv.recv msg_zero)).messages_dropped +
      (node_step node_init_probe (NodeEv.recv msg_zero)).messages_invalid +
      (contents (node_step node_init_probe (NodeEv.recv msg_zero)).ring).length := by
  have hval : validate_message msg_zero = false := by
    rw [validate_message_eq]
    simp [msg_zero]
  show (process_record node_init_probe msg_zero).messages_received ≠ _
  simp only [process_record, hval, Bool.false_eq_true, if_false]
  decide

/-- Witness for C7 on a concrete run: two pushes, one pop, one bulk pop. -/
theorem ring_buffer_fifo_refinement_witness :
    (run_ops rb_empty_probe [RBOp.push 5, RBOp.push 6, RBOp.pop, RBOp.bulk 2]).2.2 ++
      contents (run_ops rb_empty_probe [RBOp.push 5, RBOp.push 6, RBOp.pop, RBOp.bulk 2]).1 =
    (run_ops rb_empty_probe [RBOp.push 5, RBOp.push 6, RBOp.pop, RBOp.bulk 2]).2.1 :=
  (ring_buffer_fifo_refinement [RBOp.push 5, RBOp.push 6, RBOp.pop, RBOp.bulk 2]
    rb_empty_probe ⟨⟨2, rfl⟩, by decide, by decide⟩ rfl).1

end TickCapture
